import Mathlib

/-!
Shallow embedding of the single-node blockchain in `src/unnamed/part_000`
(`Transaction`, `Block`, `Blockchain`), faithful to the JavaScript source.

Modelling conventions:
* The digest collaborator (crypto-js `SHA256`) is a parameter
  `H : String → String`; the identity collaborator
  (`ec.keyFromPublic(pk).verify(msg, sig)`) is a parameter
  `V : String → String → String → Bool` taking the public identity, the
  message digest and the signature blob.
* JavaScript string concatenation renders `null` as `"null"` and
  `undefined` as `"undefined"`; numbers render in decimal.  Amounts are
  modelled as `Int`, nonces as `Nat`, both rendered with `toString`.
* A nullable/omittable field is an `Option`; a `throw` is `Except.error`
  carrying the JS error message.  Methods that mutate the receiver are
  state-passing functions returning the updated value.
* `Block.mineBlock`, a while-loop with no bound, is given explicit fuel
  and returns `none` when the fuel is exhausted before the loop exits.
-/

/-- A transfer record.  `fromAddress` is `none` for the JS `null` sentinel of
system-issued (mining-reward) transactions; `signature` is `none` before
`signTransaction` runs.  The JS falsy check on `toAddress` is modelled by the
empty string. -/
structure Transaction where
  fromAddress : Option String
  toAddress : String
  amount : Int
  signature : Option String
  deriving DecidableEq, Repr

namespace Transaction

/-- JS rendering of `this.fromAddress` under string concatenation:
`null` concatenates as the text `"null"`. -/
def fromAddressText (t : Transaction) : String :=
  match t.fromAddress with
  | none => "null"
  | some f => f

/-- `Transaction.calculateHash`:
`SHA256(this.fromAddress + this.toAddress + this.amount)` — a delimiter-free
concatenation of the three fields. -/
def calculateHash (H : String → String) (t : Transaction) : String :=
  H (t.fromAddressText ++ t.toAddress ++ toString t.amount)

/-- `Transaction.signTransaction(signingKey)`: requires the key's public hex
to equal `fromAddress` (a `null` sender never equals a hex string, so reward
transactions cannot be signed), then stores the signature over
`calculateHash()`.  `getPublic` is `signingKey.getPublic('hex')` and `sign`
is `hash ↦ signingKey.sign(hash).toDER('hex')`. -/
def signTransaction (H : String → String) (getPublic : String)
    (sign : String → String) (t : Transaction) : Except String Transaction :=
  if t.fromAddress = some getPublic then
    Except.ok { t with signature := some (sign (t.calculateHash H)) }
  else
    Except.error "You cannot sign transactions for other wallets!"

/-- `Transaction.isValid()`: a `null` sender is trusted unconditionally; a
present sender with an absent or empty signature throws; otherwise the stored
signature is verified over `calculateHash()` against the sender identity. -/
def isValid (H : String → String) (V : String → String → String → Bool)
    (t : Transaction) : Except String Bool :=
  match t.fromAddress with
  | none => Except.ok true
  | some f =>
    match t.signature with
    | none => Except.error "No signature in this transaction"
    | some sig =>
      if sig = "" then Except.error "No signature in this transaction"
      else Except.ok (V f (t.calculateHash H) sig)

end Transaction

/-- A block of the chain.  After the constructor has finished, `nonce` is
always a number, so it is a `Nat` here; the constructor's transient
`undefined` nonce is visible only inside the stored provisional `hash`
(see `Block.make`). -/
structure Block where
  timestamp : String
  transactions : List Transaction
  previousHash : String
  hash : String
  nonce : Nat
  deriving DecidableEq, Repr

namespace Block

/-- The string hashed by `Block.calculateHash`:
`this.index + this.previousHash + this.timestamp + JSON.stringify(this.data) + this.nonce`.
`this.index` and `this.data` are never assigned on `Block`, so both render as
`"undefined"` (`JSON.stringify(undefined)` is `undefined`); the block's
`transactions` field is NOT part of the digest. -/
def hashInput (previousHash timestamp nonceText : String) : String :=
  "undefined" ++ previousHash ++ timestamp ++ "undefined" ++ nonceText

/-- `Block.calculateHash()` as evaluated after construction, when `nonce`
is a number. -/
def calculateHash (H : String → String) (b : Block) : String :=
  H (hashInput b.previousHash b.timestamp (toString b.nonce))

/-- The `Block` constructor: stores the fields, computes `this.hash` by
`calculateHash()` — at that point `this.nonce` is still `undefined`, hence
the `"undefined"` nonce text in the stored digest — and only then sets
`this.nonce = 0`. -/
def make (H : String → String) (timestamp : String)
    (transactions : List Transaction) (previousHash : String) : Block :=
  { timestamp := timestamp
    transactions := transactions
    previousHash := previousHash
    hash := H (hashInput previousHash timestamp "undefined")
    nonce := 0 }

/-- `Array(difficulty + 1).join("0")`: a string of `difficulty` zero
characters. -/
def zeroTarget (difficulty : Nat) : String :=
  String.mk (List.replicate difficulty '0')

/-- One iteration of the mining loop body:
`this.nonce++; this.hash = this.calculateHash();`. -/
def mineStep (H : String → String) (b : Block) : Block :=
  let b' := { b with nonce := b.nonce + 1 }
  { b' with hash := b'.calculateHash H }

/-- `Block.mineBlock(difficulty)`: loop while
`this.hash.substring(0, difficulty) !== Array(difficulty + 1).join("0")`,
running `mineStep` each iteration.  `fuel` bounds the number of iterations;
`none` means the loop had not exited within `fuel` iterations. -/
def mineBlockAux (H : String → String) (difficulty : Nat) :
    Nat → Block → Option Block
  | fuel, b =>
    if b.hash.take difficulty = zeroTarget difficulty then some b
    else
      match fuel with
      | 0 => none
      | f + 1 => mineBlockAux H difficulty f (mineStep H b)

/-- `Block.hasValidTransactions()` over an explicit transaction list:
returns false on the first invalid transaction, propagating any exception
thrown by `isValid`. -/
def allValid (H : String → String) (V : String → String → String → Bool) :
    List Transaction → Except String Bool
  | [] => Except.ok true
  | t :: rest =>
    match t.isValid H V with
    | Except.error e => Except.error e
    | Except.ok false => Except.ok false
    | Except.ok true => allValid H V rest

/-- `Block.hasValidTransactions()`. -/
def hasValidTransactions (H : String → String)
    (V : String → String → String → Bool) (b : Block) : Except String Bool :=
  allValid H V b.transactions

end Block

/-- The ledger.  `miningReward` is an `Int` (a JS number, 100 in the
constructor). -/
structure Blockchain where
  chain : List Block
  difficulty : Nat
  pendingTransactions : List Transaction
  miningReward : Int
  deriving DecidableEq, Repr

namespace Blockchain

/-- `Blockchain.createGenesisBlock()`:
`new Block("01/01/2023", "Genesis block", "0000")`.  The JS genesis stores
the string `"Genesis block"` in `transactions`; since `Block.calculateHash`
never reads `transactions`, `isChainValid` never validates index 0, and
iterating that string yields characters whose `fromAddress`/`toAddress` are
`undefined` and so never equal a string address in `getBalanceOfAddress`,
the empty transaction list is observationally equivalent here. -/
def createGenesisBlock (H : String → String) : Block :=
  Block.make H "01/01/2023" [] "0000"

/-- The `Blockchain` constructor. -/
def new (H : String → String) : Blockchain :=
  { chain := [createGenesisBlock H]
    difficulty := 2
    pendingTransactions := []
    miningReward := 100 }

/-- `Blockchain.getLatestBlock()`: `this.chain[this.chain.length - 1]`. -/
def getLatestBlock (bc : Blockchain) : Option Block :=
  bc.chain.getLast?

/-- `Blockchain.minePendingTransactions(miningRewardAddress)`: push
`new Transaction(null, miningRewardAddress, this.miningReward)` onto the
pending buffer, build `new Block(Date.now(), this.pendingTransactions,
this.getLatestBlock().hash)`, mine it at `this.difficulty`, append it to the
chain and reset the pending buffer.  `timestamp` stands for the external
`Date.now()` value; `fuel` bounds the mining loop. -/
def minePendingTransactions (H : String → String) (bc : Blockchain)
    (miningRewardAddress : String) (timestamp : String) (fuel : Nat) :
    Option Blockchain :=
  let rewardTx : Transaction :=
    { fromAddress := none
      toAddress := miningRewardAddress
      amount := bc.miningReward
      signature := none }
  let pending := bc.pendingTransactions ++ [rewardTx]
  match bc.getLatestBlock with
  | none => none
  | some latest =>
    match Block.mineBlockAux H bc.difficulty fuel
        (Block.make H timestamp pending latest.hash) with
    | none => none
    | some b =>
      some { bc with
              chain := bc.chain ++ [b]
              pendingTransactions := [] }

/-- `Blockchain.addTransaction(transaction)`: result state paired with the
thrown error message, if any.  The JS method throws (leaving the ledger
untouched, since the push is its last statement) when `fromAddress` or
`toAddress` is falsy, when `isValid()` throws, or when `isValid()` returns
false; otherwise it pushes the transaction. -/
def addTransaction (H : String → String)
    (V : String → String → String → Bool) (bc : Blockchain)
    (t : Transaction) : Blockchain × Option String :=
  if t.fromAddress = none ∨ t.fromAddress = some "" ∨ t.toAddress = "" then
    (bc, some "Transaction must include from and to address")
  else
    match t.isValid H V with
    | Except.error e => (bc, some e)
    | Except.ok false => (bc, some "Cannot add invalid transaction to chain")
    | Except.ok true =>
      ({ bc with pendingTransactions := bc.pendingTransactions ++ [t] }, none)

/-- The per-transaction contribution of `getBalanceOfAddress`'s inner loop:
subtract when `fromAddress === address`, add when `toAddress === address`. -/
def balanceDelta (address : String) (t : Transaction) : Int :=
  (if t.fromAddress = some address then -t.amount else 0) +
  (if t.toAddress = address then t.amount else 0)

/-- `Blockchain.getBalanceOfAddress(address)`: fold the delta over every
transaction of every block of the chain, starting from 0. -/
def getBalanceOfAddress (bc : Blockchain) (address : String) : Int :=
  bc.chain.foldl
    (fun acc b => b.transactions.foldl (fun a t => a + balanceDelta address t) acc)
    0

/-- The loop body of `isChainValid` from index 1 on: `prev` is
`chain[i-1]`, the list holds `chain[i], chain[i+1], …`.  Each step applies,
in order, the three checks of the source and stops with `ok false` on the
first boolean failure (or propagates an exception from
`hasValidTransactions`). -/
def chainCheck (H : String → String) (V : String → String → String → Bool) :
    Block → List Block → Except String Bool
  | _, [] => Except.ok true
  | prev, cur :: rest =>
    match cur.hasValidTransactions H V with
    | Except.error e => Except.error e
    | Except.ok false => Except.ok false
    | Except.ok true =>
      if cur.hash ≠ cur.calculateHash H then Except.ok false
      else if cur.previousHash ≠ prev.hash then Except.ok false
      else chainCheck H V cur rest

/-- `Blockchain.isChainValid()`: the indexed loop
`for (let i = 1; i < this.chain.length; i++)` expressed over the cons
structure of the chain; an empty chain runs zero iterations. -/
def isChainValid (H : String → String)
    (V : String → String → String → Bool) (bc : Blockchain) :
    Except String Bool :=
  match bc.chain with
  | [] => Except.ok true
  | g :: rest => chainCheck H V g rest

end Blockchain

/-- Concrete digest collaborator used on witnesses and counterexamples: an
input ending in the character `3` hashes to a string with two leading
zeros, any other input to a string starting with `1`.  It keeps the whole
input, so distinct inputs get distinct digests. -/
def Hw (s : String) : String :=
  if s.data.getLast? = some '3' then "00" ++ s else "1" ++ s

/-- Concrete verification collaborator used on witnesses: a signature checks
out exactly when it is the canonical tag of the key and the message. -/
def Vw (pk msg sig : String) : Bool :=
  sig == "sig-" ++ pk ++ "-" ++ msg

/-- The fresh ledger of the witnesses, mined once for address `W` at
timestamp `t` with ample fuel. -/
def minedW : Option Blockchain :=
  (Blockchain.new Hw).minePendingTransactions Hw "W" "t" 10

/-- Tamper simulation on a transaction list:
`transactions[j].amount = a`, out-of-range indices untouched. -/
def tamperAmountList : Nat → Int → List Transaction → List Transaction
  | _, _, [] => []
  | 0, a, t :: rest => { t with amount := a } :: rest
  | j + 1, a, t :: rest => t :: tamperAmountList j a rest

/-- Tamper simulation on a chain: `chain[i].transactions[j].amount = a`. -/
def tamperChain : Nat → Nat → Int → List Block → List Block
  | _, _, _, [] => []
  | 0, j, a, b :: rest =>
    { b with transactions := tamperAmountList j a b.transactions } :: rest
  | i + 1, j, a, b :: rest => b :: tamperChain i j a rest

/-- Tamper simulation on a ledger, the external mutation
`bc.chain[i].transactions[j].amount = a` of the spec's round-trip test:
no block is re-mined and no stored hash is touched. -/
def Blockchain.tamperTxAmount (bc : Blockchain) (i j : Nat) (a : Int) :
    Blockchain :=
  { bc with chain := tamperChain i j a bc.chain }

/-- The two colliding transfer records of the delimiter-free concatenation:
sender `"ab"`, recipient `"c"` versus sender `"a"`, recipient `"bc"`, both
of amount 5. -/
def collideTx1 : Transaction :=
  { fromAddress := some "ab", toAddress := "c", amount := 5, signature := none }

/-- See `collideTx1`. -/
def collideTx2 : Transaction :=
  { fromAddress := some "a", toAddress := "bc", amount := 5, signature := none }

/-- C1: Block.calculateHash is claimed to be a digest over
(previousHash, timestamp, serialized transactions, nonce), order-sensitive in
the transaction sequence.  In the source it reads the never-assigned fields
`this.index` and `this.data`, so the digest input is
`"undefined" + previousHash + timestamp + "undefined" + nonce`: the
transactions field — order included — never enters the digest, and replacing
it by any other list leaves calculateHash unchanged. -/
theorem blockHash_ignores_transactions (H : String → String) (b : Block)
    (txs : List Transaction) :
    Block.calculateHash H { b with transactions := txs } =
      Block.calculateHash H b := rfl

/-- C2: on a fresh ledger mined once (zero externally admitted transactions,
so the mined block holds exactly the system reward transaction), the chain
validates; and after the historical tamper
`chain[1].transactions[0].amount = 999` — with no re-mining — it STILL
validates: the block digest ignores transactions (stale `this.data` field)
and the reward transaction's `null` sender exempts it from signature checks,
so the claimed round-trip tamper detection fails. -/
theorem tamperedRewardAmount_chain_still_valid :
    minedW.map (fun bc => Blockchain.isChainValid Hw Vw bc) =
      some (Except.ok true) ∧
    minedW.map
        (fun bc => Blockchain.isChainValid Hw Vw (bc.tamperTxAmount 1 0 999)) =
      some (Except.ok true) ∧
    minedW.map (fun bc => (bc.tamperTxAmount 1 0 999).chain.length) = some 2 :=
  ⟨rfl, rfl, rfl⟩

/-- C3 counterexample: on a freshly constructed ledger, a single
`minePendingTransactions("W")` already makes `getBalanceOfAddress("W")`
return the mining reward 100, not the claimed 0 — the reward transaction is
committed by the very block that call mines. -/
theorem balance_after_one_mine_is_reward_not_zero :
    minedW.map (fun bc => bc.getBalanceOfAddress "W") = some 100 ∧
    minedW.map (fun bc => bc.getBalanceOfAddress "W" == 0) = some false :=
  ⟨rfl, rfl⟩

/-- C7: `Transaction.isValid()` returns true unconditionally for the absent
(`null`) sender; throws `No signature in this transaction` when a sender is
present but the signature is absent or empty; and otherwise returns the
boolean verdict of verifying the stored signature over `calculateHash()`
against the sender identity, never an exception. -/
theorem isValid_spec (H : String → String)
    (V : String → String → String → Bool) (t : Transaction) :
    (t.fromAddress = none → t.isValid H V = Except.ok true) ∧
    (t.fromAddress ≠ none → t.signature = none ∨ t.signature = some "" →
      t.isValid H V = Except.error "No signature in this transaction") ∧
    (∀ f sig, t.fromAddress = some f → t.signature = some sig → sig ≠ "" →
      t.isValid H V = Except.ok (V f (t.calculateHash H) sig)) := by
  refine ⟨fun h => ?_, fun h1 h2 => ?_, fun f sig hf hs hne => ?_⟩
  · simp [Transaction.isValid, h]
  · match hf : t.fromAddress with
    | none => exact absurd hf h1
    | some f =>
      rcases h2 with h2 | h2 <;> simp [Transaction.isValid, hf, h2]
  · simp [Transaction.isValid, hf, hs, hne]

/-- Witness for C7: a reward-style transaction (absent sender, unsigned) is
accepted unconditionally. -/
theorem isValid_spec_witness :
    Transaction.isValid Hw Vw
      { fromAddress := none, toAddress := "W", amount := 100,
        signature := none } = Except.ok true :=
  (isValid_spec Hw Vw _).1 rfl

/-- C9: the `Block` constructor computes and stores the provisional hash
before `this.nonce = 0` runs, so every freshly constructed block stores the
digest of an input whose nonce renders as `"undefined"`, starts with
`nonce = 0`, and — for an injective digest — its stored hash differs from
`calculateHash()` re-evaluated on the constructed state: the hash invariant
fails for every unmined block. -/
theorem constructed_block_hash_stale (H : String → String)
    (hinj : Function.Injective H) (ts : String) (txs : List Transaction)
    (prev : String) :
    (Block.make H ts txs prev).hash = H (Block.hashInput prev ts "undefined") ∧
    (Block.make H ts txs prev).nonce = 0 ∧
    (Block.make H ts txs prev).hash ≠
      Block.calculateHash H (Block.make H ts txs prev) := by
  refine ⟨rfl, rfl, fun h => ?_⟩
  have hin := hinj h
  have hlen := congrArg String.length hin
  have h0 : toString (0 : Nat) = "0" := rfl
  simp [Block.hashInput, Block.make, h0, String.length_append] at hlen
  exact absurd hlen (by decide)

/-- Witness for C9 at the identity digest and a concrete block. -/
theorem constructed_block_hash_stale_witness :
    (Block.make id "t" [] "p").hash = id (Block.hashInput "p" "t" "undefined") ∧
    (Block.make id "t" [] "p").nonce = 0 ∧
    (Block.make id "t" [] "p").hash ≠
      Block.calculateHash id (Block.make id "t" [] "p") :=
  constructed_block_hash_stale id (fun _ _ h => h) "t" [] "p"

/-- Loop invariant of `mineBlock`: when the search returns, the hash meets
the difficulty target, and the result either is the untouched input block
(zero iterations) or carries a hash recomputed from its own nonce; the
fields outside the `(nonce, hash)` pair are never written. -/
theorem mineBlockAux_props (H : String → String) (d : Nat) :
    ∀ (fuel : Nat) (b b' : Block), Block.mineBlockAux H d fuel b = some b' →
      b'.hash.take d = Block.zeroTarget d ∧
      (b' = b ∨ b'.hash = Block.calculateHash H b') ∧
      b'.transactions = b.transactions ∧
      b'.previousHash = b.previousHash ∧
      b'.timestamp = b.timestamp := by
  intro fuel
  induction fuel with
  | zero =>
    intro b b' h
    by_cases hc : b.hash.take d = Block.zeroTarget d
    · unfold Block.mineBlockAux at h
      simp [hc] at h
      subst h
      exact ⟨hc, Or.inl rfl, rfl, rfl, rfl⟩
    · unfold Block.mineBlockAux at h
      simp [hc] at h
  | succ f ih =>
    intro b b' h
    by_cases hc : b.hash.take d = Block.zeroTarget d
    · unfold Block.mineBlockAux at h
      simp [hc] at h
      subst h
      exact ⟨hc, Or.inl rfl, rfl, rfl, rfl⟩
    · unfold Block.mineBlockAux at h
      simp [hc] at h
      obtain ⟨h1, h2, h3, h4, h5⟩ := ih (Block.mineStep H b) b' h
      refine ⟨h1, ?_, h3, h4, h5⟩
      rcases h2 with h2 | h2
      · subst h2
        exact Or.inr rfl
      · exact Or.inr h2

/-- C4 counterexample: at difficulty 0 the while-condition
(`substring(0,0) !== ""`) is false immediately, so `mineBlock(0)` returns at
once, leaving the provisional constructor hash — digested with an
`undefined` nonce — in place while `nonce` is 0: re-evaluating
`calculateHash()` on the resulting state does not reproduce the stored
hash. -/
theorem mineBlock_difficulty_zero_stale_hash :
    (Block.mineBlockAux Hw 0 0 (Block.make Hw "t" [] "p")).isSome = true ∧
    (Block.mineBlockAux Hw 0 0 (Block.make Hw "t" [] "p")).map
        (fun b => b.hash == Block.calculateHash Hw b) = some false :=
  ⟨rfl, rfl⟩

/-- C4 (amended): whenever `mineBlock(d)` returns, the resulting hash has at
least `d` leading zero hex characters; and provided the block's stored hash
did not already meet the target on entry (so the loop body runs at least
once — this excludes `d = 0` and the unlucky provisional hash),
`calculateHash()` on the resulting state reproduces the stored hash
exactly. -/
theorem mineBlock_spec (H : String → String) (d fuel : Nat) (b b' : Block)
    (h : Block.mineBlockAux H d fuel b = some b') :
    b'.hash.take d = Block.zeroTarget d ∧
    (b.hash.take d ≠ Block.zeroTarget d →
      b'.hash = Block.calculateHash H b') := by
  obtain ⟨h1, h2, -, -, -⟩ := mineBlockAux_props H d fuel b b' h
  refine ⟨h1, fun hstart => ?_⟩
  rcases h2 with h2 | h2
  · subst h2
    exact absurd h1 hstart
  · exact h2

/-- A concrete terminating mining run at the ledger difficulty 2. -/
def minedBlockW : Option Block :=
  Block.mineBlockAux Hw 2 10 (Block.make Hw "t" [] "p")

/-- Witness for C4 (amended), evaluated on the concrete run
`minedBlockW`. -/
theorem mineBlock_spec_witness :
    (minedBlockW.get (by decide)).hash.take 2 = Block.zeroTarget 2 ∧
    (minedBlockW.get (by decide)).hash =
      Block.calculateHash Hw (minedBlockW.get (by decide)) := by
  have h := mineBlock_spec Hw 2 10 (Block.make Hw "t" [] "p")
    (minedBlockW.get (by decide)) ((Option.some_get (by decide)).symm)
  exact ⟨h.1, h.2 (by decide)⟩

/-- C8: a successful `minePendingTransactions(rewardAddress)` run mines —
at the ledger's difficulty — a block built from the pending buffer extended
by the system reward transaction (absent sender, `rewardAddress` recipient,
`miningReward` amount), whose `previousHash` is the latest block's hash,
appends that block to the chain and resets the pending buffer to empty,
leaving `difficulty` and `miningReward` unchanged. -/
theorem minePendingTransactions_spec (H : String → String) (bc : Blockchain)
    (addr ts : String) (fuel : Nat) (bc' : Blockchain)
    (h : bc.minePendingTransactions H addr ts fuel = some bc') :
    ∃ latest b,
      bc.getLatestBlock = some latest ∧
      Block.mineBlockAux H bc.difficulty fuel
          (Block.make H ts
            (bc.pendingTransactions ++
              [{ fromAddress := none, toAddress := addr,
                 amount := bc.miningReward, signature := none }])
            latest.hash) = some b ∧
      b.transactions =
        bc.pendingTransactions ++
          [{ fromAddress := none, toAddress := addr,
             amount := bc.miningReward, signature := none }] ∧
      b.previousHash = latest.hash ∧
      bc'.chain = bc.chain ++ [b] ∧
      bc'.pendingTransactions = [] ∧
      bc'.difficulty = bc.difficulty ∧
      bc'.miningReward = bc.miningReward := by
  simp only [Blockchain.minePendingTransactions] at h
  split at h
  next => exact absurd h (by simp)
  next latest hl =>
    split at h
    next => exact absurd h (by simp)
    next b hm =>
      injection h with h
      obtain ⟨-, -, htx, hprev, -⟩ :=
        mineBlockAux_props H bc.difficulty fuel _ b hm
      subst h
      exact ⟨latest, b, hl, hm, by simpa [Block.make] using htx,
        by simpa [Block.make] using hprev, rfl, rfl, rfl, rfl⟩

/-- Witness for C8 on the concrete run `minedW`. -/
theorem minePendingTransactions_spec_witness :
    ∃ latest b,
      (Blockchain.new Hw).getLatestBlock = some latest ∧
      Block.mineBlockAux Hw (Blockchain.new Hw).difficulty 10
          (Block.make Hw "t"
            ((Blockchain.new Hw).pendingTransactions ++
              [{ fromAddress := none, toAddress := "W",
                 amount := (Blockchain.new Hw).miningReward,
                 signature := none }])
            latest.hash) = some b ∧
      b.transactions =
        (Blockchain.new Hw).pendingTransactions ++
          [{ fromAddress := none, toAddress := "W",
             amount := (Blockchain.new Hw).miningReward,
             signature := none }] ∧
      b.previousHash = latest.hash ∧
      (minedW.get (by decide)).chain = (Blockchain.new Hw).chain ++ [b] ∧
      (minedW.get (by decide)).pendingTransactions = [] ∧
      (minedW.get (by decide)).difficulty = (Blockchain.new Hw).difficulty ∧
      (minedW.get (by decide)).miningReward = (Blockchain.new Hw).miningReward :=
  minePendingTransactions_spec Hw (Blockchain.new Hw) "W" "t" 10
    (minedW.get (by decide)) ((Option.some_get (by decide)).symm)

/-- C3 (amended): the reward transaction is committed by the very block the
triggering call mines, so it is reflected in balance queries immediately: on
a freshly constructed ledger, after one successful
`minePendingTransactions(addr)`, `getBalanceOfAddress(addr)` already equals
the mining reward — no second mining cycle is needed. -/
theorem reward_visible_immediately (H : String → String) (addr ts : String)
    (fuel : Nat) (bc' : Blockchain)
    (h : (Blockchain.new H).minePendingTransactions H addr ts fuel = some bc') :
    bc'.getBalanceOfAddress addr = (Blockchain.new H).miningReward := by
  obtain ⟨latest, b, -, -, htx, -, hchain, -, -, -⟩ :=
    minePendingTransactions_spec H (Blockchain.new H) addr ts fuel bc' h
  have hchain' : bc'.chain = [Blockchain.createGenesisBlock H, b] := by
    simpa [Blockchain.new] using hchain
  have htx' : b.transactions =
      [{ fromAddress := none, toAddress := addr, amount := 100,
         signature := none }] := by
    simpa [Blockchain.new] using htx
  unfold Blockchain.getBalanceOfAddress
  rw [hchain']
  simp [htx', Blockchain.balanceDelta, Blockchain.createGenesisBlock,
    Block.make, Blockchain.new]

/-- Witness for C3 (amended) on the concrete run `minedW`. -/
theorem reward_visible_immediately_witness :
    (minedW.get (by decide)).getBalanceOfAddress "W" =
      (Blockchain.new Hw).miningReward :=
  reward_visible_immediately Hw "W" "t" 10 (minedW.get (by decide))
    ((Option.some_get (by decide)).symm)

/-- Out-of-range placeholder for total chain indexing (never reached when
the index is in bounds, matching the JS `undefined` element). -/
def dummyBlock : Block :=
  { timestamp := "", transactions := [], previousHash := "", hash := "",
    nonce := 0 }

/-- Total indexing `chain[i]` used to state the claim's per-index checks. -/
def blockAt (l : List Block) (i : Nat) : Block :=
  l.getD i dummyBlock

/-- The three checks the claim lists for index `i`, with `prev = chain[i-1]`
and `cur = chain[i]`. -/
def blockChecks (H : String → String) (V : String → String → String → Bool)
    (prev cur : Block) : Prop :=
  cur.hasValidTransactions H V = Except.ok true ∧
  cur.hash = cur.calculateHash H ∧
  cur.previousHash = prev.hash

/-- The claim's reading of chain validation, stated from its words: every
index from 1 to the end of the chain passes all three checks; index 0 is
never constrained on its own. -/
def chainValidSpec (H : String → String)
    (V : String → String → String → Bool) (bc : Blockchain) : Prop :=
  ∀ i, 1 ≤ i → i < bc.chain.length →
    blockChecks H V (blockAt bc.chain (i - 1)) (blockAt bc.chain i)

/-- One unrolling of the validation loop: a cons chain segment validates to
`ok true` exactly when the head passes the three checks and the remaining
segment validates. -/
theorem chainCheck_cons_ok (H : String → String)
    (V : String → String → String → Bool) (prev cur : Block)
    (rest : List Block) :
    Blockchain.chainCheck H V prev (cur :: rest) = Except.ok true ↔
      blockChecks H V prev cur ∧
        Blockchain.chainCheck H V cur rest = Except.ok true := by
  have hstep : Blockchain.chainCheck H V prev (cur :: rest) =
      (match cur.hasValidTransactions H V with
        | Except.error e => Except.error e
        | Except.ok false => Except.ok false
        | Except.ok true =>
          if cur.hash ≠ cur.calculateHash H then Except.ok false
          else if cur.previousHash ≠ prev.hash then Except.ok false
          else Blockchain.chainCheck H V cur rest) := rfl
  rw [hstep]
  cases hv : cur.hasValidTransactions H V with
  | error e => simp [blockChecks, hv]
  | ok bval =>
    cases bval with
    | false => simp [blockChecks, hv]
    | true =>
      by_cases h1 : cur.hash = cur.calculateHash H
      · by_cases h2 : cur.previousHash = prev.hash
        · simp [blockChecks, hv, h1, h2]
        · simp [blockChecks, hv, h1, h2]
      · simp [blockChecks, hv, h1]

/-- The loop from index 1, related to the per-index checks: `prev` plays
`chain[i-1]` for the head and the list holds the blocks from index `i`
on. -/
theorem chainCheck_ok_iff (H : String → String)
    (V : String → String → String → Bool) :
    ∀ (rest : List Block) (prev : Block),
      Blockchain.chainCheck H V prev rest = Except.ok true ↔
      ∀ i, i < rest.length →
        blockChecks H V (blockAt (prev :: rest) i) (blockAt rest i) := by
  intro rest
  induction rest with
  | nil =>
    intro prev
    simp [Blockchain.chainCheck]
  | cons cur rest ih =>
    intro prev
    rw [chainCheck_cons_ok, ih cur]
    constructor
    · rintro ⟨hhead, htail⟩ i hi
      cases i with
      | zero => simpa [blockAt] using hhead
      | succ j =>
        have hj : j < rest.length := by simpa using hi
        simpa [blockAt] using htail j hj
    · intro hall
      refine ⟨by simpa [blockAt] using hall 0 (by simp), fun j hj => ?_⟩
      have := hall (j + 1) (by simpa using Nat.succ_lt_succ hj)
      simpa [blockAt] using this

/-- `chainCheck` reads its seed block only through its `hash` field. -/
theorem chainCheck_hash_only (H : String → String)
    (V : String → String → String → Bool) (rest : List Block)
    (g g' : Block) (hgg : g.hash = g'.hash) :
    Blockchain.chainCheck H V g rest = Blockchain.chainCheck H V g' rest := by
  cases rest with
  | nil => rfl
  | cons cur rest =>
    unfold Blockchain.chainCheck
    rw [hgg]

/-- C5: `isChainValid()` returns true exactly when every block from index 1
onward passes, in order, the three checks the claim lists
(`hasValidTransactions`, hash recomputation, linkage to the predecessor);
and the genesis block at index 0 is never re-validated — the validator reads
it only through its stored `hash`, so two ledgers whose genesis blocks agree
on `hash` validate identically whatever the rest of the genesis state
holds. -/
theorem isChainValid_spec (H : String → String)
    (V : String → String → String → Bool) :
    (∀ bc : Blockchain,
      (bc.isChainValid H V = Except.ok true ↔ chainValidSpec H V bc)) ∧
    (∀ (g g' : Block) (rest : List Block) (d : Nat)
        (p : List Transaction) (m : Int),
      g.hash = g'.hash →
      Blockchain.isChainValid H V
          { chain := g :: rest, difficulty := d, pendingTransactions := p,
            miningReward := m } =
        Blockchain.isChainValid H V
          { chain := g' :: rest, difficulty := d, pendingTransactions := p,
            miningReward := m }) := by
  constructor
  · intro bc
    obtain ⟨chain, d, p, m⟩ := bc
    cases chain with
    | nil => simp [Blockchain.isChainValid, chainValidSpec]
    | cons g rest =>
      show Blockchain.chainCheck H V g rest = Except.ok true ↔ _
      rw [chainCheck_ok_iff]
      unfold chainValidSpec
      constructor
      · intro hall i h1 hi
        match i, h1 with
        | j + 1, _ =>
          have hj : j < rest.length := by simpa using hi
          simpa [blockAt] using hall j hj
      · intro hall j hj
        have := hall (j + 1) (by omega) (by simpa using Nat.succ_lt_succ hj)
        simpa [blockAt] using this
  · intro g g' rest d p m hgg
    show Blockchain.chainCheck H V g rest = Blockchain.chainCheck H V g' rest
    exact chainCheck_hash_only H V rest g g' hgg

/-- A copy of the genesis block with tampered internal state (different
transactions) but the same stored hash. -/
def genesisTampered : Block :=
  { Blockchain.createGenesisBlock Hw with transactions := [collideTx1] }

/-- Witness for C5: a ledger whose genesis was replaced by an
internally tampered block with the same stored hash validates exactly like
the original — index 0 is not re-validated. -/
theorem isChainValid_spec_witness :
    Blockchain.isChainValid Hw Vw
        { chain := [Blockchain.createGenesisBlock Hw], difficulty := 2,
          pendingTransactions := [], miningReward := 100 } =
      Blockchain.isChainValid Hw Vw
        { chain := [genesisTampered], difficulty := 2,
          pendingTransactions := [], miningReward := 100 } :=
  (isChainValid_spec Hw Vw).2 (Blockchain.createGenesisBlock Hw)
    genesisTampered [] 2 [] 100 rfl

/-- C6: `addTransaction(tx)` throws exactly when the sender is absent or
empty, the recipient is empty, or `isValid()` does not come back true
(including the exception `isValid` itself throws for an unsigned
transaction); only on success is `tx` appended to the pending buffer, and
whenever it throws the ledger — its pending buffer included — is returned
unchanged: admission is atomic. -/
theorem addTransaction_spec (H : String → String)
    (V : String → String → String → Bool) (bc : Blockchain)
    (t : Transaction) :
    ((bc.addTransaction H V t).2 ≠ none ↔
      t.fromAddress = none ∨ t.fromAddress = some "" ∨ t.toAddress = "" ∨
        t.isValid H V ≠ Except.ok true) ∧
    ((bc.addTransaction H V t).2 = none →
      (bc.addTransaction H V t).1 =
        { bc with pendingTransactions := bc.pendingTransactions ++ [t] }) ∧
    (∀ e, (bc.addTransaction H V t).2 = some e →
      (bc.addTransaction H V t).1 = bc) := by
  unfold Blockchain.addTransaction
  by_cases hmal :
      t.fromAddress = none ∨ t.fromAddress = some "" ∨ t.toAddress = ""
  · simp [hmal]
    tauto
  · cases hv : t.isValid H V with
    | error e => simp [hmal, hv]
    | ok bval =>
      cases bval with
      | false => simp [hmal, hv]
      | true => simp [hmal, hv]

/-- Witness for C6: a submission with an absent sender is rejected and the
ledger is unchanged. -/
theorem addTransaction_spec_witness :
    (Blockchain.addTransaction Hw Vw (Blockchain.new Hw)
        { fromAddress := none, toAddress := "B", amount := 5,
          signature := none }).1 = Blockchain.new Hw :=
  (addTransaction_spec Hw Vw (Blockchain.new Hw) _).2.2
    "Transaction must include from and to address" rfl

/-- C10: `Transaction.calculateHash` concatenates sender, recipient and
amount with no delimiter, so the distinct transactions
(`"ab"` → `"c"`) and (`"a"` → `"bc"`), same amount, produce the identical
digest input `"abc5"`: their digests coincide for every digest function, and
any verification over one's digest gives the same verdict as over the
other's — so a signature forged for one verifies over the other's digest. -/
theorem txHash_concatenation_collision :
    collideTx1 ≠ collideTx2 ∧
    collideTx1.fromAddress ≠ collideTx2.fromAddress ∧
    collideTx1.toAddress ≠ collideTx2.toAddress ∧
    (∀ H : String → String,
      Transaction.calculateHash H collideTx1 =
        Transaction.calculateHash H collideTx2) ∧
    (∀ (H : String → String) (V : String → String → String → Bool) (pk sig : String),
      V pk (collideTx1.calculateHash H) sig =
        V pk (collideTx2.calculateHash H) sig) := by
  refine ⟨by decide, by decide, by decide, fun H => rfl, fun H V pk sig => rfl⟩

/-- Witness for C10: the colliding digests evaluated at the concrete digest
function `Hw`. -/
theorem txHash_concatenation_collision_witness :
    Transaction.calculateHash Hw collideTx1 =
      Transaction.calculateHash Hw collideTx2 :=
  txHash_concatenation_collision.2.2.2.1 Hw
